import Mathlib

/-!
Verification of the keyword sentiment scorer in `analysis.py`
(Child-Predator-Detection).

The scorer is embedded shallowly: text is `List Char`, Python `float`
weights are `ℚ` (every configured weight is a short decimal literal),
Python `dict` / `Counter` values are insertion-ordered association lists,
and the dynamically-typed JSON merge path is embedded with an explicit
`JValue` type and `Except`-style error propagation.
-/

attribute [local semireducible] Rat.add Rat.mul Rat.sub Rat.ofScientific Rat.inv

namespace Analysis

/-- The space character, `Char.ofNat 32`. -/
def spaceChar : Char := Char.ofNat 32

/-- Embedding of Python `str.lower` on a single character (ASCII range,
which is all the scorer's tables exercise): uppercase `A`-`Z` maps to
`a`-`z`, every other character is unchanged. -/
def lowerChar (c : Char) : Char :=
  if 65 ≤ c.toNat ∧ c.toNat ≤ 90 then Char.ofNat (c.toNat + 32) else c

/-- Embedding of the regex class `\s` on the ASCII range (Python matches
space, tab, newline, carriage return, form feed and vertical tab). -/
def isWSChar (c : Char) : Bool :=
  c.toNat == 32 || c.toNat == 9 || c.toNat == 10 || c.toNat == 13 ||
    c.toNat == 12 || c.toNat == 11

/-- Python dict assignment `m[k] = v`: overwrite the value at `k` in place
if the key is present, otherwise append the new binding at the end
(insertion order). Also the semantics of one step of `dict.update`. -/
def setKey {K V : Type} [DecidableEq K] (k : K) (v : V) :
    List (K × V) → List (K × V)
  | [] => [(k, v)]
  | kv :: rest => if kv.1 = k then (k, v) :: rest else kv :: setKey k v rest

/-- Python dict lookup `m.get(k)` on an association list. -/
def lookupKey {K V : Type} [DecidableEq K] (k : K) :
    List (K × V) → Option V
  | [] => none
  | kv :: rest => if kv.1 = k then some kv.2 else lookupKey k rest

/-- Embedding of `re.sub(r"\s+", " ", s)`: every maximal run of whitespace
characters is replaced by a single space. -/
def collapseWS : List Char → List Char
  | [] => []
  | [c] => if isWSChar c then [spaceChar] else [c]
  | c :: d :: cs =>
    if isWSChar c then
      if isWSChar d then collapseWS (d :: cs)
      else spaceChar :: collapseWS (d :: cs)
    else c :: collapseWS (d :: cs)

/-- Drop trailing whitespace (the right half of Python `str.strip`). -/
def dropTrailWS (l : List Char) : List Char :=
  (l.reverse.dropWhile isWSChar).reverse

/-- Embedding of Python `str.strip`: drop leading and trailing whitespace. -/
def stripWS (l : List Char) : List Char :=
  dropTrailWS (l.dropWhile isWSChar)

/-- Embedding of `normalise` from `analysis.py`: lower-case the text and collapse
whitespace (`re.sub(r"\s+", " ", text.lower()).strip()`). -/
def normalise (text : List Char) : List Char :=
  stripWS (collapseWS (text.map lowerChar))

/-- Embedding of Python's substring test `p in s`. -/
def containsSub : List Char → List Char → Bool
  | p, [] => p.isPrefixOf []
  | p, s@(_ :: t) => p.isPrefixOf s || containsSub p t

/-- Left-to-right non-overlapping scan for occurrences of a nonempty
pattern `p`: while the skip counter is positive the scan is still inside
the previously matched occurrence, so that position cannot start a new
match; at skip `0` a match at the current position counts one occurrence
and skips the rest of the matched span (`p.length - 1` further characters,
the first being consumed by this step). -/
def countOccAux (p : List Char) : List Char → Nat → Nat
  | [], _ => 0
  | _ :: cs, Nat.succ k => countOccAux p cs k
  | c :: cs, 0 =>
    if p.isPrefixOf (c :: cs) then 1 + countOccAux p cs (p.length - 1)
    else countOccAux p cs 0

/-- Number of non-overlapping occurrences of `p` in `s`, scanning left to
right: the embedding of `len(re.findall(re.escape(p), s))`.  (For the empty
pattern Python finds `len(s) + 1` empty matches; the configured phrases are
all nonempty.) -/
def countOcc (p s : List Char) : Nat :=
  if p.isEmpty then s.length + 1 else countOccAux p s 0

/-- Left-to-right non-overlapping replacement scan for a nonempty pattern,
with the same skip-counter discipline as `countOccAux`: at a match the
replacement `r` is emitted and the matched span is not copied. -/
def replaceAllAux (p r : List Char) : List Char → Nat → List Char
  | [], _ => []
  | _ :: cs, Nat.succ k => replaceAllAux p r cs k
  | c :: cs, 0 =>
    if p.isPrefixOf (c :: cs) then r ++ replaceAllAux p r cs (p.length - 1)
    else c :: replaceAllAux p r cs 0

/-- Embedding of Python `s.replace(p, r)`: replace every non-overlapping
occurrence of `p` in `s` by `r`, scanning left to right.  (Python's
behaviour on the empty pattern, `r` interleaved around every character, is
included for totality; the configured phrases are all nonempty.) -/
def replaceAll (p r s : List Char) : List Char :=
  if p.isEmpty then r ++ s.foldr (fun c acc => c :: (r ++ acc)) []
  else replaceAllAux p r s 0

/-- Character class of the token regex `[a-zA-Z']+`: ASCII letters and the
ASCII apostrophe (codepoint 39). -/
def isTokChar (c : Char) : Bool :=
  (65 ≤ c.toNat && c.toNat ≤ 90) || (97 ≤ c.toNat && c.toNat ≤ 122) ||
    c.toNat == 39

/-- Lexer loop for `tokenize`: `run` is the current (reversed) run of token
characters; a non-token character flushes the run. -/
def tokenizeAux : List Char → List Char → List (List Char)
  | [], run => if run.isEmpty then [] else [run.reverse]
  | c :: cs, run =>
    if isTokChar c then tokenizeAux cs (c :: run)
    else if run.isEmpty then tokenizeAux cs []
    else run.reverse :: tokenizeAux cs []

/-- Embedding of `re.findall(r"[a-zA-Z']+", s)`: the maximal runs of token
characters in `s`, left to right. -/
def tokenize (s : List Char) : List (List Char) :=
  tokenizeAux s []

/-- A phrase table: insertion-ordered mapping from phrase to weight. -/
abbrev PhraseTable : Type := List (List Char × ℚ)

/-- A token table: insertion-ordered mapping from category name to an
insertion-ordered mapping from word to weight. -/
abbrev TokenTable : Type := List (String × List (List Char × ℚ))

/-- Table `PHRASE_CONFIG` from `analysis.py`, in declaration order.  The curly
apostrophes (U+2019) and the non-breaking hyphen in `role-play` (U+2011)
are copied verbatim from the source. -/
def PHRASE_CONFIG : PhraseTable := [
  ("our little secret".data, -2.0),
  ("special friendship".data, -1.8),
  ("best friends forever".data, -1.5),
  ("i’m here for you".data, -1.5),
  ("love you".data, -1.2),
  ("i care about you".data, -1.2),
  ("are you alone".data, -1.8),
  ("do you want to be famous".data, -1.5),
  ("want to see something cool".data, -1.4),
  ("let me help you with that".data, -1.3),
  ("wanna play a game".data, -1.2),
  ("role‑play".data, -1.5),
  ("you’re so mature for your age".data, -1.8),
  ("no one understands you".data, -1.5),
  ("i won’t tell anyone".data, -1.7),
  ("you’re the only one who gets me".data, -1.4),
  ("they won’t believe you".data, -1.7),
  ("where are you from".data, -1.5),
  ("send me a pic".data, -2.0),
  ("what’s your real name".data, -1.4),
  ("can you video chat".data, -1.6),
  ("i won’t tell if you do it".data, -1.9),
  ("prove you’re real".data, -1.6),
  ("i’ll show you mine if you show me yours".data, -2.2),
  ("show me more".data, -1.8),
  ("you’re so pretty".data, -1.3),
  ("you’re so handsome".data, -1.3),
  ("i’m in charge".data, -1.4),
  ("i won’t hurt you".data, -1.6),
  ("if you loved me, you would".data, -2.0),
  ("everyone does it".data, -1.2),
  ("asl".data, -1.0),
  ("gfe".data, -1.2),
  ("cu l8r".data, -0.5),
  ("wyd".data, -0.5),
  ("420".data, -0.5),
  ("2m4u".data, -0.8),
  ("fwb".data, -1.0),
  ("you’re ugly".data, -1.5),
  ("no one likes you".data, -1.5),
  ("kill yourself".data, -3.0),
  ("nobody cares".data, -1.8),
  ("everyone’s laughing at you".data, -1.7),
  ("you deserve it".data, -1.6),
  ("you asked for it".data, -1.6),
  ("don’t tell your parents".data, -2.0),
  ("they’ll get mad if you tell them".data, -1.8),
  ("it’s just a joke".data, -1.0)]

/-- Table `TOKEN_CONFIG` from `analysis.py`: categories in declaration order
`positive`, `negative`, `neutral`, each an insertion-ordered word→weight
mapping. -/
def TOKEN_CONFIG : TokenTable := [
  ("positive", [
    ("protect".data, 1.5),
    ("safe".data, 1.2),
    ("secure".data, 1.2),
    ("rescue".data, 1.5),
    ("support".data, 1.2),
    ("report".data, 1.0),
    ("trusted".data, 1.0),
    ("education".data, 1.0),
    ("awareness".data, 1.0)]),
  ("negative", [
    ("naked".data, -2.0),
    ("undressed".data, -1.8),
    ("sexting".data, -1.7),
    ("pics".data, -1.4),
    ("kissing".data, -1.2),
    ("touching".data, -1.3),
    ("hugs".data, -0.8),
    ("hot".data, -1.0),
    ("mature".data, -1.0),
    ("teen".data, -1.5),
    ("predator".data, -2.0),
    ("groom".data, -1.8),
    ("abuse".data, -1.8),
    ("harm".data, -1.5),
    ("victim".data, -1.2),
    ("bully".data, -1.4)]),
  ("neutral", [
    ("child".data, 0.0),
    ("children".data, 0.0),
    ("online".data, 0.0),
    ("internet".data, 0.0),
    ("law".data, 0.0)])]

/-- Threshold `positive_at` of the classifier, from `analysis.py`. -/
def THRESHOLDS_positive : ℚ := 1.0

/-- Threshold `negative_at` of the classifier, from `analysis.py`. -/
def THRESHOLDS_negative : ℚ := -1.0

/-- The body of the `for phrase, weight in PHRASE_CONFIG.items()` loop of
`phrase_score`, threading the `(score, counts, remaining)` state through
the configured phrases in declaration order. -/
def phraseLoop : PhraseTable → ℚ × List (List Char × Nat) × List Char →
    ℚ × List (List Char × Nat) × List Char
  | [], st => st
  | (phrase, weight) :: rest, (score, counts, remaining) =>
    if containsSub phrase remaining then
      phraseLoop rest
        (score + weight * (countOcc phrase remaining : ℚ),
         setKey phrase (countOcc phrase remaining) counts,
         replaceAll phrase [spaceChar] remaining)
    else phraseLoop rest (score, counts, remaining)

/-- Embedding of `phrase_score` from `analysis.py`, parameterised by the phrase table it
reads (the source reads the global `PHRASE_CONFIG`): returns the phrase
score, the phrase hit counts, and the residual text after phrase removal. -/
def phrase_score (cfg : PhraseTable) (text : List Char) :
    ℚ × List (List Char × Nat) × List Char :=
  phraseLoop cfg (0, [], text)

/-- The inner `for cat, words in TOKEN_CONFIG.items()` loop of
`token_score`: find the first category whose word mapping contains the
token and return its weight, or `none` (the `break` after the first hit). -/
def catLookup (cats : TokenTable) (tok : List Char) : Option ℚ :=
  match cats with
  | [] => none
  | (_, words) :: rest =>
    match lookupKey tok words with
    | some w => some w
    | none => catLookup rest tok

/-- The outer `for tok in tokens` loop of `token_score`, threading the
`(score, counts)` state through the extracted tokens left to right. -/
def tokenLoop (cats : TokenTable) : List (List Char) → ℚ × List (List Char × Nat) →
    ℚ × List (List Char × Nat)
  | [], st => st
  | tok :: rest, (score, counts) =>
    match catLookup cats tok with
    | some weight =>
      tokenLoop cats rest
        (score + weight,
         setKey tok ((lookupKey tok counts).getD 0 + 1) counts)
    | none => tokenLoop cats rest (score, counts)

/-- Embedding of `token_score` from `analysis.py`, parameterised by the token table it
reads (the source reads the global `TOKEN_CONFIG`). -/
def token_score (cats : TokenTable) (text : List Char) :
    ℚ × List (List Char × Nat) :=
  tokenLoop cats (tokenize text) (0, [])

/-- Embedding of `classify` from `analysis.py`. -/
def classify (total : ℚ) : String :=
  if total ≥ THRESHOLDS_positive then ("positive")
  else if total ≤ THRESHOLDS_negative then ("negative")
  else ("neutral")

/-- The dictionary returned by `analyze_sentiment`. -/
structure AnalysisResult where
  sentiment : String
  score : ℚ
  phrase_hits : List (List Char × Nat)
  token_hits : List (List Char × Nat)
deriving DecidableEq, Repr

/-- The diagnostics printed when `debug=True`: the intermediate phrase and
token hit mappings and the total score, emitted on a channel separate from
the returned result. -/
def debugChannel (debug : Bool) (p_counts t_counts : List (List Char × Nat))
    (total : ℚ) : Option (List (List Char × Nat) × List (List Char × Nat) × ℚ) :=
  if debug then some (p_counts, t_counts, total) else none

/-- Embedding of `analyze_sentiment` from `analysis.py`: normalise, score phrases, score
tokens of the residual text, sum, classify.  The returned pair is the
result dictionary together with the debug diagnostic channel. -/
def analyze_sentiment (text : List Char) (debug : Bool := false) :
    AnalysisResult ×
      Option (List (List Char × Nat) × List (List Char × Nat) × ℚ) :=
  let text_norm := normalise text
  let pr := phrase_score PHRASE_CONFIG text_norm
  let tr := token_score TOKEN_CONFIG pr.2.2
  let total := pr.1 + tr.1
  let sentiment := classify total
  (⟨sentiment, total, pr.2.1, tr.2⟩, debugChannel debug pr.2.1 tr.2 total)

/-! ### The dynamically-typed configuration-merge path

`load_custom_keywords` reads a JSON file and merges it into the global
tables with `dict.update`, performing no validation of the weight values:
the tables are ordinary Python dicts, so after a merge a weight can be any
JSON value, and scoring then performs `score += weight * occurrences` on
whatever was stored.  This layer embeds that dynamic typing explicitly:
`JValue` is a parsed JSON value, tables store `JValue` weights, and the
arithmetic carried out by scoring is the dynamically-typed Python
arithmetic on such
values. -/

/-- A parsed JSON value (the result of `json.loads`). -/
inductive JValue where
  | num (q : ℚ)
  | str (s : String)
  | jbool (b : Bool)
  | jnull
  | arr (elems : List JValue)
  | obj (fields : List (String × JValue))

/-- The Python exceptions this module can raise.  `fileNotFound` embeds
`FileNotFoundError` (the spec's `NotFoundError`), `valueError` embeds
`ValueError` (raised for an unknown token category — the spec's
`ConfigurationError`), and `typeError` embeds the `TypeError` raised by
operations on unsupported operand types. -/
inductive PyErr where
  | fileNotFound (path : String)
  | valueError (msg : String)
  | typeError (msg : String)
deriving DecidableEq, Repr

/-- The global tables as they really are at runtime: Python dicts whose
weights are whatever values the merge stored. -/
structure DynConfig where
  phrases : List (List Char × JValue)
  tokens : List (String × List (List Char × JValue))

/-- Python `dict.update(new)` when `new` is itself a dict: each binding of
`new`, in order, overwrites in place or appends. -/
def updatePairs {K V : Type} [DecidableEq K] (m new : List (K × V)) :
    List (K × V) :=
  new.foldl (fun acc kv => setKey kv.1 kv.2 acc) m

/-- The startup state of the tables: `PHRASE_CONFIG` and `TOKEN_CONFIG`
with their (numeric) built-in weights. -/
def defaultDynConfig : DynConfig where
  phrases := PHRASE_CONFIG.map (fun pw => (pw.1, JValue.num pw.2))
  tokens := TOKEN_CONFIG.map
    (fun cw => (cw.1, cw.2.map (fun kv => (kv.1, JValue.num kv.2))))

/-- Conversion of one element of a non-dict `dict.update` argument to a
key/value pair, as Python performs it: a two-element array is taken as the
pair, a two-character string yields its two characters as one-character
key and value, a two-entry object yields its two keys (iterating a dict
yields its keys); any other length raises `ValueError`, and a
non-iterable element (number, bool, null) raises `TypeError`.  Python
additionally accepts any hashable non-string key (such as a number) in a
two-element array; the tables are string-keyed, such keys can never
collide with a configured key nor match text during scoring, and no claim
concerns them, so the embedding keeps the string key type and rejects
them. -/
def seqElemToPair (e : JValue) : Except PyErr (List Char × JValue) :=
  match e with
  | JValue.arr [k, v] =>
    match k with
    | JValue.str s => Except.ok (s.data, v)
    | _ => Except.error (PyErr.typeError ("unsupported key in update sequence"))
  | JValue.arr _ =>
    Except.error (PyErr.valueError ("update sequence element has wrong length"))
  | JValue.str s =>
    match s.data with
    | [c1, c2] => Except.ok ([c1], JValue.str (String.mk [c2]))
    | _ =>
      Except.error
        (PyErr.valueError ("update sequence element has wrong length"))
  | JValue.obj [f1, f2] => Except.ok (f1.1.data, JValue.str f2.1)
  | JValue.obj _ =>
    Except.error (PyErr.valueError ("update sequence element has wrong length"))
  | _ =>
    Except.error
      (PyErr.typeError ("cannot convert update sequence element to a sequence"))

/-- Python `dict.update` applied to a sequence of key/value pairs: the
elements are converted and inserted one at a time, so a failure at a later
element leaves the insertions of the earlier ones applied. -/
def updateSeqLoop (m : List (List Char × JValue)) :
    List JValue → List (List Char × JValue) × Option PyErr
  | [] => (m, none)
  | e :: rest =>
    match seqElemToPair e with
    | Except.error err => (m, some err)
    | Except.ok kv => updateSeqLoop (setKey kv.1 kv.2 m) rest

/-- Python `dict.update(arg)` on the string-keyed tables, for every kind
of parsed-JSON argument: an object merges its bindings; an array is
treated as a sequence of key/value pairs (so an empty array, or an array
of two-element pairs, merges silently); an empty string is an empty
sequence and merges silently, while a nonempty string fails at its first
one-character element; a number, bool or null is not iterable and raises
`TypeError`.  The pair returned is the (possibly partially) updated
mapping together with the exception raised, if any. -/
def pyDictUpdate (m : List (List Char × JValue)) (arg : JValue) :
    List (List Char × JValue) × Option PyErr :=
  match arg with
  | JValue.obj fields =>
    (updatePairs m (fields.map (fun kv => (kv.1.data, kv.2))), none)
  | JValue.arr elems => updateSeqLoop m elems
  | JValue.str s =>
    match s.data with
    | [] => (m, none)
    | _ :: _ =>
      (m, some (PyErr.valueError ("update sequence element has wrong length")))
  | _ => (m, some (PyErr.typeError ("update argument is not iterable")))

/-- The per-category tokens loop of `load_custom_keywords`: an unknown
category raises the unknown-category `ValueError` naming it on the spot,
after the updates of the categories already iterated have been applied; a
valid category has its word dict updated in place with Python's
`dict.update` semantics (`pyDictUpdate`), which accepts objects and
pair sequences alike and raises only where the update itself fails,
keeping any insertions already made. -/
def tokenMergeLoop : List (String × JValue) → DynConfig →
    DynConfig × Option PyErr
  | [], cfg => (cfg, none)
  | (cat, words) :: rest, cfg =>
    if (cfg.tokens.map Prod.fst).contains cat then
      match pyDictUpdate ((lookupKey cat cfg.tokens).getD []) words with
      | (w2, some err) =>
        ({ cfg with tokens := setKey cat w2 cfg.tokens }, some err)
      | (w2, none) =>
        tokenMergeLoop rest { cfg with tokens := setKey cat w2 cfg.tokens }
    else (cfg, some (PyErr.valueError ("Unknown token category " ++ cat)))

/-- Embedding of `load_custom_keywords` from `analysis.py`.  File access is embedded by
an `Option`al parsed payload: `none` is a path for which `p.exists()` is
false, raising `FileNotFoundError`; `some data` is the parsed JSON of an
existing file.  The function mutates the global tables in place, so it
returns the table state reached together with the exception raised, if
any: state mutated before an exception is kept, exactly as in Python.
The phrases section is merged with Python's `dict.update` semantics
(`pyDictUpdate`); the tokens section must support `.items()`, which every
non-dict value lacks, so a non-object tokens section always raises, as
does a non-object top-level payload at `.get`. -/
def load_custom_keywords (src : Option JValue) (cfg : DynConfig) :
    DynConfig × Option PyErr :=
  match src with
  | none => (cfg, some (PyErr.fileNotFound ("missing override file")))
  | some data =>
    match data with
    | JValue.obj fields =>
      match pyDictUpdate cfg.phrases
          ((lookupKey ("phrases") fields).getD (JValue.obj [])) with
      | (ph2, some err) => ({ cfg with phrases := ph2 }, some err)
      | (ph2, none) =>
        let cfg1 : DynConfig := { cfg with phrases := ph2 }
        match (lookupKey ("tokens") fields).getD (JValue.obj []) with
        | JValue.obj ts => tokenMergeLoop ts cfg1
        | _ =>
          (cfg1, some (PyErr.typeError ("tokens section is not a mapping")))
    | _ => (cfg, some (PyErr.typeError ("loaded JSON is not an object")))

/-- Python `value * occurrences` for a stored weight and a `Nat` count:
numbers multiply, a string repeats, a bool is the integer 0 or 1, a list
repeats; `None` and dicts raise `TypeError`. -/
def pyMulNat (v : JValue) (n : Nat) : Except PyErr JValue :=
  match v with
  | JValue.num q => Except.ok (JValue.num (q * n))
  | JValue.str s => Except.ok (JValue.str (String.join (List.replicate n s)))
  | JValue.jbool b => Except.ok (JValue.num (if b then n else 0))
  | JValue.arr xs => Except.ok (JValue.arr (List.replicate n xs).flatten)
  | JValue.jnull =>
    Except.error (PyErr.typeError ("unsupported operand type for *"))
  | JValue.obj _ =>
    Except.error (PyErr.typeError ("unsupported operand type for *"))

/-- Python `a + b` where `a` is the running (float) score: adding a number
or a bool succeeds, anything else raises `TypeError` (`score += weight`
with a non-numeric stored weight). -/
def pyAddScore (a : ℚ) (b : JValue) : Except PyErr ℚ :=
  match b with
  | JValue.num q => Except.ok (a + q)
  | JValue.jbool bb => Except.ok (a + if bb then 1 else 0)
  | _ => Except.error (PyErr.typeError ("unsupported operand types for +"))

/-- Function `phrase_score` exactly as executed over the post-merge dynamic tables:
identical control flow to `phraseLoop`, but `score += weight * occurrences`
is the dynamic arithmetic, which can raise at scoring time. -/
def phraseLoopDyn : List (List Char × JValue) →
    ℚ × List (List Char × Nat) × List Char →
    Except PyErr (ℚ × List (List Char × Nat) × List Char)
  | [], st => Except.ok st
  | (phrase, weight) :: rest, (score, counts, remaining) =>
    if containsSub phrase remaining then
      match pyMulNat weight (countOcc phrase remaining) with
      | Except.error e => Except.error e
      | Except.ok prod =>
        match pyAddScore score prod with
        | Except.error e => Except.error e
        | Except.ok score1 =>
          phraseLoopDyn rest
            (score1, setKey phrase (countOcc phrase remaining) counts,
             replaceAll phrase [spaceChar] remaining)
    else phraseLoopDyn rest (score, counts, remaining)

/-- The inner category loop of `token_score` over the dynamic tables:
first category containing the token wins, `break` afterwards. -/
def catLookupDyn (cats : List (String × List (List Char × JValue)))
    (tok : List Char) : Option JValue :=
  match cats with
  | [] => none
  | (_, words) :: rest =>
    match lookupKey tok words with
    | some w => some w
    | none => catLookupDyn rest tok

/-- Loop of `token_score` over the post-merge dynamic tables: `score +=
weight` on the stored value, which can raise at scoring time. -/
def tokenLoopDyn (cats : List (String × List (List Char × JValue))) :
    List (List Char) → ℚ × List (List Char × Nat) →
    Except PyErr (ℚ × List (List Char × Nat))
  | [], st => Except.ok st
  | tok :: rest, (score, counts) =>
    match catLookupDyn cats tok with
    | some weight =>
      match pyAddScore score weight with
      | Except.error e => Except.error e
      | Except.ok score1 =>
        tokenLoopDyn cats rest
          (score1, setKey tok ((lookupKey tok counts).getD 0 + 1) counts)
    | none => tokenLoopDyn cats rest (score, counts)

/-- Function `analyze_sentiment` as executed over the post-merge dynamic tables. -/
def analyze_sentiment_dyn (cfg : DynConfig) (text : List Char) :
    Except PyErr AnalysisResult :=
  match phraseLoopDyn cfg.phrases (0, [], normalise text) with
  | Except.error e => Except.error e
  | Except.ok (p_score, p_counts, remainder) =>
    match tokenLoopDyn cfg.tokens (tokenize remainder) (0, []) with
    | Except.error e => Except.error e
    | Except.ok (t_score, t_counts) =>
      Except.ok ⟨classify (p_score + t_score), p_score + t_score,
        p_counts, t_counts⟩

/-! ### Specification-side definitions

These definitions follow the wording of the specification, for comparison
with the executable embedding above. -/

/-- Spec-side tokenizer, following the spec's words: tokens are the
maximal runs of token characters, and every other character is a
discarded boundary. -/
def maximalRunsSpec : List Char → List (List Char)
  | [] => []
  | c :: cs =>
    if isTokChar c then
      (c :: cs.takeWhile isTokChar) :: maximalRunsSpec (cs.dropWhile isTokChar)
    else maximalRunsSpec cs
termination_by s => s.length
decreasing_by
  · simp only [List.length_cons]
    exact Nat.lt_succ_of_le (List.dropWhile_sublist isTokChar).length_le
  · simp only [List.length_cons]
    omega

/-- Spec-side category resolution: the weight of a token in the first
category (in table order) whose word mapping contains it, if any. -/
def firstCatWeightSpec (cats : TokenTable) (tok : List Char) : Option ℚ :=
  (cats.find? (fun cw => (lookupKey tok cw.2).isSome)).bind
    (fun cw => lookupKey tok cw.2)

/-- Sum of `weight(key) × count` over a hit mapping. -/
def weightedSum (w : List Char → ℚ) (counts : List (List Char × Nat)) : ℚ :=
  (counts.map (fun kn => w kn.1 * (kn.2 : ℚ))).sum

/-- The configured weight of a phrase (0 for unconfigured phrases). -/
def phraseWeight (p : List Char) : ℚ :=
  (lookupKey p PHRASE_CONFIG).getD 0

/-- The weight a token scores under: its weight in the first category of
`TOKEN_CONFIG` that contains it (0 for unknown tokens). -/
def tokenWeight (t : List Char) : ℚ :=
  (catLookup TOKEN_CONFIG t).getD 0

/-- The text of the overlap scenario used for the phrase tie-break claim. -/
def overlapText : List Char := ("no one understands you deserve it").data

/-- An override whose tokens section names the unknown category `toxic`
between two valid categories. -/
def unknownCatOverride : JValue := JValue.obj [
  ("phrases", JValue.obj [("stranger danger", JValue.num 1.0)]),
  ("tokens", JValue.obj [
    ("positive", JValue.obj [("guardian", JValue.num 0.5)]),
    ("toxic", JValue.obj [("slur", JValue.num (-1.0))]),
    ("negative", JValue.obj [("stalk", JValue.num (-2.0))])])]

/-- An override carrying a wrong-typed (string) weight for a new phrase. -/
def badWeightOverride : JValue :=
  JValue.obj [("phrases", JValue.obj [("zzz", JValue.str ("oops"))])]

/-! ## Theorems -/

theorem lookupKey_setKey_self {K V : Type} [DecidableEq K] (k : K) (v : V)
    (m : List (K × V)) : lookupKey k (setKey k v m) = some v := by
  induction m with
  | nil => simp [setKey, lookupKey]
  | cons kv rest ih =>
    by_cases h : kv.1 = k
    · simp [setKey, lookupKey, h]
    · simp [setKey, lookupKey, h, ih]

theorem lookupKey_setKey_ne {K V : Type} [DecidableEq K] {q k : K}
    (h : q ≠ k) (v : V) (m : List (K × V)) :
    lookupKey q (setKey k v m) = lookupKey q m := by
  have h2 : ¬ k = q := fun hh => h hh.symm
  induction m with
  | nil => simp [setKey, lookupKey, h2]
  | cons kv rest ih =>
    by_cases hk : kv.1 = k
    · subst hk
      simp [setKey, lookupKey, h2]
    · simp only [setKey, if_neg hk, lookupKey]
      by_cases hq : kv.1 = q
      · simp [hq]
      · simp [hq, ih]

theorem setKey_of_lookup_none {K V : Type} [DecidableEq K] {k : K} (v : V)
    {m : List (K × V)} (h : lookupKey k m = none) :
    setKey k v m = m ++ [(k, v)] := by
  induction m with
  | nil => simp [setKey]
  | cons kv rest ih =>
    by_cases hk : kv.1 = k
    · simp [lookupKey, hk] at h
    · simp only [lookupKey, if_neg hk] at h
      simp [setKey, hk, ih h]

theorem mem_setKey {K V : Type} [DecidableEq K] {k : K} {v : V}
    {m : List (K × V)} {kv : K × V} (h : kv ∈ setKey k v m) :
    kv ∈ m ∨ kv = (k, v) := by
  induction m with
  | nil =>
    right
    simpa [setKey] using h
  | cons hd rest ih =>
    by_cases hk : hd.1 = k
    · rw [setKey, if_pos hk] at h
      rcases List.mem_cons.mp h with h | h
      · right; exact h
      · left; exact List.mem_cons_of_mem hd h
    · rw [setKey, if_neg hk] at h
      rcases List.mem_cons.mp h with h | h
      · left; exact List.mem_cons.mpr (Or.inl h)
      · rcases ih h with h2 | h2
        · left; exact List.mem_cons_of_mem hd h2
        · right; exact h2

theorem weightedSum_nil (w : List Char → ℚ) : weightedSum w [] = 0 := rfl

theorem weightedSum_append (w : List Char → ℚ)
    (c d : List (List Char × Nat)) :
    weightedSum w (c ++ d) = weightedSum w c + weightedSum w d := by
  simp [weightedSum]

theorem weightedSum_setKey_incr (w : List Char → ℚ) (k : List Char)
    (c : List (List Char × Nat)) :
    weightedSum w (setKey k ((lookupKey k c).getD 0 + 1) c) =
      weightedSum w c + w k := by
  induction c with
  | nil => simp [setKey, lookupKey, weightedSum]
  | cons kv rest ih =>
    by_cases hk : kv.1 = k
    · subst hk
      simp [lookupKey, setKey, weightedSum]
      push_cast
      ring
    · simp only [lookupKey, if_neg hk, setKey, weightedSum, List.map_cons,
        List.sum_cons] at ih ⊢
      rw [ih]
      ring

theorem countOccAux_pos {p s : List Char} (h : containsSub p s = true)
    (hp : p.isEmpty = false) : 1 ≤ countOccAux p s 0 := by
  induction s with
  | nil =>
    cases p with
    | nil => simp [List.isEmpty] at hp
    | cons a q => simp [containsSub, List.isPrefixOf] at h
  | cons c cs ih =>
    rw [containsSub, Bool.or_eq_true] at h
    rw [countOccAux]
    by_cases hpre : p.isPrefixOf (c :: cs) = true
    · simp [hpre]
    · rcases h with h | h
      · exact absurd h hpre
      · simpa [hpre] using ih h

theorem countOcc_pos {p s : List Char} (h : containsSub p s = true) :
    1 ≤ countOcc p s := by
  rw [countOcc]
  by_cases hp : p.isEmpty
  · simp [hp]
  · simp only [hp, if_false]
    exact countOccAux_pos h (by simpa using hp)

/-- C1.  For every real total score, the classifier returns `positive`
when `total ≥ positive_at` (1.0), otherwise `negative` when
`total ≤ negative_at` (-1.0), otherwise `neutral`; a total exactly equal
to either threshold classifies as the named class, never `neutral`. -/
theorem classify_threshold_boundaries (total : ℚ) :
    (classify total = "positive" ↔ THRESHOLDS_positive ≤ total) ∧
    (classify total = "negative" ↔
      (total ≤ THRESHOLDS_negative ∧ ¬ THRESHOLDS_positive ≤ total)) ∧
    (classify total = "neutral" ↔
      (THRESHOLDS_negative < total ∧ total < THRESHOLDS_positive)) ∧
    classify THRESHOLDS_positive = "positive" ∧
    classify THRESHOLDS_negative = "negative" := by
  have hlt : THRESHOLDS_negative < THRESHOLDS_positive := by decide
  unfold classify
  refine ⟨?_, ?_, ?_, ?_, ?_⟩
  · split_ifs with h1 h2 <;> simp_all <;> decide
  · split_ifs with h1 h2 <;> simp_all <;> first | decide | linarith
  · split_ifs with h1 h2 <;> simp_all <;> first | decide | constructor <;> linarith
  · simp
  · have : ¬ THRESHOLDS_positive ≤ THRESHOLDS_negative := by decide
    simp [this]

theorem phraseLoop_append (a b : PhraseTable)
    (st : ℚ × List (List Char × Nat) × List Char) :
    phraseLoop (a ++ b) st = phraseLoop b (phraseLoop a st) := by
  induction a generalizing st with
  | nil => rfl
  | cons pw rest ih =>
    obtain ⟨s, c, r⟩ := st
    obtain ⟨p, w⟩ := pw
    rw [List.cons_append]
    simp only [phraseLoop]
    split_ifs with hc
    · exact ih _
    · exact ih _

theorem phraseLoop_lookup_of_not_mem {q : List Char} (cfg : PhraseTable)
    (st : ℚ × List (List Char × Nat) × List Char)
    (h : q ∉ cfg.map Prod.fst) :
    lookupKey q (phraseLoop cfg st).2.1 = lookupKey q st.2.1 := by
  induction cfg generalizing st with
  | nil => rfl
  | cons pw rest ih =>
    obtain ⟨s, c, r⟩ := st
    obtain ⟨p, w⟩ := pw
    simp only [List.map_cons, List.mem_cons, not_or] at h
    simp only [phraseLoop]
    split_ifs with hc
    · rw [ih _ (by simpa using h.2)]
      exact lookupKey_setKey_ne h.1 _ _
    · exact ih _ (by simpa using h.2)

theorem phraseLoop_no_match (cfg : PhraseTable) (s : ℚ)
    (c : List (List Char × Nat)) (r : List Char)
    (h : ∀ pw ∈ cfg, containsSub pw.1 r = false) :
    phraseLoop cfg (s, c, r) = (s, c, r) := by
  induction cfg with
  | nil => rfl
  | cons pw rest ih =>
    obtain ⟨p, w⟩ := pw
    have hp := h (p, w) (List.mem_cons_self _ _)
    simp only [phraseLoop, hp, Bool.false_eq_true, if_false]
    exact ih (fun x hx => h x (List.mem_cons_of_mem _ hx))

theorem tokenLoop_no_match (cats : TokenTable) (toks : List (List Char))
    (s : ℚ) (c : List (List Char × Nat))
    (h : ∀ tok ∈ toks, catLookup cats tok = none) :
    tokenLoop cats toks (s, c) = (s, c) := by
  induction toks with
  | nil => rfl
  | cons tok rest ih =>
    have ht := h tok (List.mem_cons_self _ _)
    simp only [tokenLoop, ht]
    exact ih (fun x hx => h x (List.mem_cons_of_mem _ hx))

/-- C5.  For every well-formed string input with no dictionary matches —
no configured phrase occurs in the normalised text and no extracted token
is in any category (which covers the empty string and pure-whitespace
text) — `analyze_sentiment` returns, without failure, score 0, label
`neutral`, and empty phrase-hit and token-hit mappings. -/
theorem analyze_no_matches (text : List Char)
    (hp : ∀ pw ∈ PHRASE_CONFIG, containsSub pw.1 (normalise text) = false)
    (ht : ∀ tok ∈ tokenize (normalise text),
      catLookup TOKEN_CONFIG tok = none) :
    analyze_sentiment text false = (⟨"neutral", 0, [], []⟩, none) := by
  simp only [analyze_sentiment, phrase_score, token_score,
    phraseLoop_no_match _ 0 [] _ hp]
  simp only [tokenLoop_no_match _ _ 0 [] ht]
  norm_num [classify, THRESHOLDS_positive, THRESHOLDS_negative, debugChannel]

/-- Witness for C5 at the concrete pure-whitespace input `"  \t "`. -/
theorem analyze_no_matches_witness :
    analyze_sentiment (("  \t ").data) false = (⟨"neutral", 0, [], []⟩, none) :=
  analyze_no_matches _ (by decide) (by decide)

/-- Function `analyze_sentiment` depends on the input text only through its
normalisation. -/
theorem analyze_sentiment_norm_congr (t1 t2 : List Char)
    (h : normalise t1 = normalise t2) (d : Bool) :
    analyze_sentiment t1 d = analyze_sentiment t2 d := by
  unfold analyze_sentiment
  rw [h]

/-- Every configured phrase is its own normal form, and analysing a text
that is exactly that phrase yields no token hits and one phrase hit. -/
theorem phrase_self_check : PHRASE_CONFIG.all (fun pw =>
    (normalise pw.1 == pw.1) &&
    ((analyze_sentiment pw.1 false).1.token_hits ==
      ([] : List (List Char × Nat))) &&
    (lookupKey pw.1 (analyze_sentiment pw.1 false).1.phrase_hits ==
      some 1)) = true := by decide

/-- C2.  For every input text equal after normalisation to exactly one
configured phrase, the phrase matcher consumes the matched span (replacing
it with a space), so the token matcher records zero hits — in particular
zero hits for the phrase's constituent words, which occur only inside the
matched span — while the phrase itself is recorded with one occurrence. -/
theorem phrase_consumption_no_token_hits (text p : List Char) (w : ℚ)
    (hmem : (p, w) ∈ PHRASE_CONFIG) (hnorm : normalise text = p) :
    (analyze_sentiment text false).1.token_hits = [] ∧
    lookupKey p (analyze_sentiment text false).1.phrase_hits = some 1 := by
  have hall := List.all_eq_true.mp phrase_self_check _ hmem
  simp only [Bool.and_eq_true, beq_iff_eq] at hall
  obtain ⟨⟨hfix, htok⟩, hph⟩ := hall
  rw [analyze_sentiment_norm_congr text p (by rw [hnorm, hfix]) false]
  exact ⟨htok, hph⟩

/-- Witness for C2: a mixed-case, oddly-spaced rendering of the phrase
`our little secret`. -/
theorem phrase_consumption_no_token_hits_witness :
    (analyze_sentiment (("  OUR   little\tSeCrEt ").data) false).1.token_hits
      = [] ∧
    lookupKey (("our little secret").data)
      (analyze_sentiment (("  OUR   little\tSeCrEt ").data) false).1.phrase_hits
      = some 1 :=
  phrase_consumption_no_token_hits _ _ (-2.0) (by decide) (by decide)

/-- C3.  The phrase matcher iterates `PHRASE_CONFIG` in declaration
order: for any decomposition of the table around a phrase `q`, the
recorded hit count of `q` is the number of non-overlapping occurrences of
`q` in the residual text left after the earlier-declared phrases have been
matched and erased — `none` if `q` no longer occurs there.  Consequently
(concrete conjuncts) on `"no one understands you deserve it"`, where the
earlier-declared `"no one understands you"` overlaps `"you deserve it"`,
only the earlier phrase is counted even though the later one occurs in
the normalised input. -/
theorem phrase_order_erasure_first_wins (text : List Char)
    (cfg1 cfg2 : PhraseTable) (q : List Char) (v : ℚ)
    (hsplit : PHRASE_CONFIG = cfg1 ++ (q, v) :: cfg2) :
    (lookupKey q (analyze_sentiment text false).1.phrase_hits =
      if containsSub q (phrase_score cfg1 (normalise text)).2.2 = true then
        some (countOcc q (phrase_score cfg1 (normalise text)).2.2)
      else none) ∧
    (analyze_sentiment overlapText false).1.phrase_hits =
      [(("no one understands you").data, 1)] ∧
    containsSub (("you deserve it").data) (normalise overlapText) = true := by
  refine ⟨?_, by decide, by decide⟩
  have hnd : (PHRASE_CONFIG.map Prod.fst).Nodup := by decide
  rw [hsplit] at hnd
  simp only [List.map_append, List.map_cons] at hnd
  rcases List.nodup_append.mp hnd with ⟨hn1, hn2, hdisj⟩
  have h1 : q ∉ cfg1.map Prod.fst := fun hq =>
    hdisj hq (List.mem_cons_self _ _)
  have h2 : q ∉ cfg2.map Prod.fst := (List.nodup_cons.mp hn2).1
  show lookupKey q (phraseLoop PHRASE_CONFIG (0, [], normalise text)).2.1 = _
  rw [hsplit, phraseLoop_append]
  rcases hps : phraseLoop cfg1 (0, [], normalise text) with ⟨s1, st1⟩
  rcases hst1 : st1 with ⟨c1, r1⟩
  have hc1 : lookupKey q c1 = none := by
    have hc := phraseLoop_lookup_of_not_mem cfg1 (0, [], normalise text) h1
    rw [hps, hst1] at hc
    simpa [lookupKey] using hc
  have hpsr : (phrase_score cfg1 (normalise text)).2.2 = r1 := by
    show (phraseLoop cfg1 (0, [], normalise text)).2.2 = r1
    rw [hps, hst1]
  rw [hpsr]
  simp only [phraseLoop]
  split_ifs with hc
  · rw [phraseLoop_lookup_of_not_mem cfg2 _ h2]
    exact lookupKey_setKey_self q _ c1
  · rw [phraseLoop_lookup_of_not_mem cfg2 _ h2]
    exact hc1

/-- Witness for C3: the decomposition of `PHRASE_CONFIG` around its
14th entry `"no one understands you"`, instantiated at the overlap text. -/
theorem phrase_order_erasure_first_wins_witness :
    (lookupKey (("no one understands you").data)
      (analyze_sentiment overlapText false).1.phrase_hits =
      if containsSub (("no one understands you").data)
          (phrase_score (PHRASE_CONFIG.take 13) (normalise overlapText)).2.2
          = true then
        some (countOcc (("no one understands you").data)
          (phrase_score (PHRASE_CONFIG.take 13) (normalise overlapText)).2.2)
      else none) ∧
    (analyze_sentiment overlapText false).1.phrase_hits =
      [(("no one understands you").data, 1)] ∧
    containsSub (("you deserve it").data) (normalise overlapText) = true :=
  phrase_order_erasure_first_wins overlapText (PHRASE_CONFIG.take 13)
    (PHRASE_CONFIG.drop 14) (("no one understands you").data) (-1.5)
    (by decide)

theorem phraseLoop_score (wf : List Char → ℚ) (cfg : PhraseTable)
    (hagree : ∀ pw ∈ cfg, wf pw.1 = pw.2)
    (hnd : (cfg.map Prod.fst).Nodup) :
    ∀ (s : ℚ) (c : List (List Char × Nat)) (r : List Char),
      (∀ k ∈ cfg.map Prod.fst, lookupKey k c = none) →
      (phraseLoop cfg (s, c, r)).1 =
        s + weightedSum wf (phraseLoop cfg (s, c, r)).2.1 -
          weightedSum wf c := by
  induction cfg with
  | nil =>
    intro s c r _
    simp only [phraseLoop]
    ring
  | cons pw rest ih =>
    obtain ⟨p, w⟩ := pw
    simp only [List.map_cons, List.nodup_cons] at hnd
    have hrest_agree : ∀ x ∈ rest, wf x.1 = x.2 :=
      fun x hx => hagree x (List.mem_cons_of_mem _ hx)
    intro s c r hnone
    simp only [phraseLoop]
    split_ifs with hc
    · have hpc : lookupKey p c = none := hnone p (by simp)
      rw [setKey_of_lookup_none _ hpc]
      have hnone2 : ∀ k ∈ rest.map Prod.fst,
          lookupKey k (c ++ [(p, countOcc p r)]) = none := by
        intro k hk
        have hkp : k ≠ p := fun he => hnd.1 (he ▸ hk)
        rw [← setKey_of_lookup_none _ hpc, lookupKey_setKey_ne hkp]
        exact hnone k (by simp [hk])
      rw [ih hrest_agree hnd.2 _ _ _ hnone2, weightedSum_append]
      have hwp : wf p = w := hagree (p, w) (List.mem_cons_self _ _)
      simp only [weightedSum, List.map_cons, List.map_nil, List.sum_cons,
        List.sum_nil, hwp]
      ring
    · exact ih hrest_agree hnd.2 s c r (fun k hk => hnone k (by simp [hk]))

theorem phraseLoop_counts_mem (cfg : PhraseTable) :
    ∀ (s : ℚ) (c : List (List Char × Nat)) (r : List Char)
      (kn : List Char × Nat), kn ∈ (phraseLoop cfg (s, c, r)).2.1 →
      kn ∈ c ∨ (kn.1 ∈ cfg.map Prod.fst ∧ 1 ≤ kn.2) := by
  induction cfg with
  | nil => intro s c r kn h; exact Or.inl h
  | cons pw rest ih =>
    intro s c r kn h
    obtain ⟨p, w⟩ := pw
    simp only [phraseLoop] at h
    split_ifs at h with hc
    · rcases ih _ _ _ _ h with h2 | h2
      · rcases mem_setKey h2 with h3 | h3
        · exact Or.inl h3
        · refine Or.inr ⟨by simp [h3], ?_⟩
          rw [h3]
          exact countOcc_pos hc
      · exact Or.inr ⟨by simp [h2.1], h2.2⟩
    · rcases ih _ _ _ _ h with h2 | h2
      · exact Or.inl h2
      · exact Or.inr ⟨by simp [h2.1], h2.2⟩

theorem tokenLoop_score (cats : TokenTable) :
    ∀ (toks : List (List Char)) (s : ℚ) (c : List (List Char × Nat)),
      (tokenLoop cats toks (s, c)).1 =
        s + weightedSum (fun t => (catLookup cats t).getD 0)
              (tokenLoop cats toks (s, c)).2 -
          weightedSum (fun t => (catLookup cats t).getD 0) c := by
  intro toks
  induction toks with
  | nil =>
    intro s c
    simp only [tokenLoop]
    ring
  | cons tok rest ih =>
    intro s c
    rcases hcl : catLookup cats tok with _ | wt
    · simp only [tokenLoop, hcl]
      exact ih s c
    · simp only [tokenLoop, hcl]
      rw [ih]
      rw [weightedSum_setKey_incr (fun t => (catLookup cats t).getD 0) tok c]
      simp only [hcl, Option.getD_some]
      ring

theorem tokenLoop_counts_mem (cats : TokenTable) :
    ∀ (toks : List (List Char)) (s : ℚ) (c : List (List Char × Nat))
      (kn : List Char × Nat), kn ∈ (tokenLoop cats toks (s, c)).2 →
      kn ∈ c ∨ ((catLookup cats kn.1).isSome = true ∧ 1 ≤ kn.2) := by
  intro toks
  induction toks with
  | nil => intro s c kn h; exact Or.inl h
  | cons tok rest ih =>
    intro s c kn h
    rcases hcl : catLookup cats tok with _ | wt
    · simp only [tokenLoop, hcl] at h
      exact ih _ _ _ h
    · simp only [tokenLoop, hcl] at h
      rcases ih _ _ _ h with h2 | h2
      · rcases mem_setKey h2 with h3 | h3
        · exact Or.inl h3
        · refine Or.inr ⟨?_, ?_⟩
          · rw [h3]
            simp [hcl]
          · rw [h3]
            simp
      · exact Or.inr h2

/-- C10.  For every input text the result is internally consistent: the
total score equals the sum over recorded phrase hits of configured weight
times count plus the sum over recorded token hits of the weight in the
first category containing the token times count; every recorded count is
at least 1; and every recorded key is a configured phrase, respectively a
word of some configured token category. -/
theorem result_internally_consistent (text : List Char) :
    ((analyze_sentiment text false).1.score =
      weightedSum phraseWeight (analyze_sentiment text false).1.phrase_hits +
        weightedSum tokenWeight (analyze_sentiment text false).1.token_hits) ∧
    ((analyze_sentiment text false).1.phrase_hits.all
      (fun kn => decide (1 ≤ kn.2) &&
        decide (kn.1 ∈ PHRASE_CONFIG.map Prod.fst)) = true) ∧
    ((analyze_sentiment text false).1.token_hits.all
      (fun kn => decide (1 ≤ kn.2) &&
        (catLookup TOKEN_CONFIG kn.1).isSome) = true) := by
  refine ⟨?_, ?_, ?_⟩
  · have hp := phraseLoop_score phraseWeight PHRASE_CONFIG (by decide)
      (by decide) 0 [] (normalise text) (by intro k _; rfl)
    have ht := tokenLoop_score TOKEN_CONFIG
      (tokenize (phraseLoop PHRASE_CONFIG (0, [], normalise text)).2.2) 0 []
    show (phraseLoop PHRASE_CONFIG (0, [], normalise text)).1 +
        (tokenLoop TOKEN_CONFIG
          (tokenize (phraseLoop PHRASE_CONFIG (0, [], normalise text)).2.2)
          (0, [])).1 =
      weightedSum phraseWeight
          (phraseLoop PHRASE_CONFIG (0, [], normalise text)).2.1 +
        weightedSum tokenWeight
          (tokenLoop TOKEN_CONFIG
            (tokenize (phraseLoop PHRASE_CONFIG (0, [], normalise text)).2.2)
            (0, [])).2
    rw [hp, ht]
    simp only [weightedSum, List.map_nil, List.sum_nil, tokenWeight]
    ring
  · rw [List.all_eq_true]
    intro kn hkn
    have h := phraseLoop_counts_mem PHRASE_CONFIG 0 [] (normalise text) kn hkn
    rcases h with h | h
    · simp at h
    · simp only [Bool.and_eq_true, decide_eq_true_eq]
      exact ⟨h.2, h.1⟩
  · rw [List.all_eq_true]
    intro kn hkn
    have h := tokenLoop_counts_mem TOKEN_CONFIG _ 0 [] kn hkn
    rcases h with h | h
    · simp at h
    · simp only [Bool.and_eq_true, decide_eq_true_eq]
      exact ⟨h.2, h.1⟩

theorem tokenizeAux_run (cs : List Char) (run : List Char) (h : run ≠ []) :
    tokenizeAux cs run =
      (run.reverse ++ cs.takeWhile isTokChar) ::
        tokenizeAux (cs.dropWhile isTokChar) [] := by
  induction cs generalizing run with
  | nil =>
    have h2 : run.isEmpty = false := by simpa [List.isEmpty_iff] using h
    simp [tokenizeAux, h2]
  | cons c cs ih =>
    by_cases hc : isTokChar c
    · have h3 : (c :: run) ≠ [] := by simp
      simp only [tokenizeAux, hc, if_true, List.takeWhile_cons,
        List.dropWhile_cons]
      rw [ih (c :: run) h3]
      simp
    · have h2 : run.isEmpty = false := by simpa [List.isEmpty_iff] using h
      simp only [tokenizeAux, hc, if_false, h2, Bool.false_eq_true,
        List.takeWhile_cons, List.dropWhile_cons, List.append_nil]
      rfl

theorem tokenize_eq_maximalRuns (s : List Char) :
    tokenize s = maximalRunsSpec s := by
  suffices h : ∀ (n : Nat) (t : List Char), t.length ≤ n →
      tokenize t = maximalRunsSpec t from h s.length s le_rfl
  intro n
  induction n with
  | zero =>
    intro t ht
    have : t = [] := List.length_eq_zero.mp (Nat.le_zero.mp ht)
    subst this
    simp [tokenize, tokenizeAux, maximalRunsSpec]
  | succ n ihn =>
    intro t ht
    cases t with
    | nil => simp [tokenize, tokenizeAux, maximalRunsSpec]
    | cons c cs =>
      by_cases hc : isTokChar c
      · have h1 : tokenize (c :: cs) = tokenizeAux cs [c] := by
          simp [tokenize, tokenizeAux, hc]
        rw [h1, tokenizeAux_run cs [c] (by simp)]
        have h2 : maximalRunsSpec (c :: cs) =
            (c :: cs.takeWhile isTokChar) ::
              maximalRunsSpec (cs.dropWhile isTokChar) := by
          simp [maximalRunsSpec, hc]
        rw [h2]
        have hlen : (cs.dropWhile isTokChar).length ≤ n := by
          have := (@List.dropWhile_sublist Char cs isTokChar).length_le
          simp only [List.length_cons] at ht
          omega
        rw [show tokenizeAux (cs.dropWhile isTokChar) [] =
            tokenize (cs.dropWhile isTokChar) from rfl]
        rw [ihn _ hlen]
        simp
      · have h1 : tokenize (c :: cs) = tokenize cs := by
          simp [tokenize, tokenizeAux, hc]
        have h2 : maximalRunsSpec (c :: cs) = maximalRunsSpec cs := by
          simp [maximalRunsSpec, hc]
        rw [h1, h2]
        exact ihn cs (by simp only [List.length_cons] at ht; omega)

theorem catLookup_eq_spec (cats : TokenTable) (tok : List Char) :
    catLookup cats tok = firstCatWeightSpec cats tok := by
  induction cats with
  | nil => rfl
  | cons cw rest ih =>
    obtain ⟨cat, words⟩ := cw
    rcases hl : lookupKey tok words with _ | w
    · simpa [catLookup, firstCatWeightSpec, hl, List.find?] using ih
    · simp [catLookup, firstCatWeightSpec, hl, List.find?]

theorem tokenLoop_score_occ (cats : TokenTable) :
    ∀ (toks : List (List Char)) (s : ℚ) (c : List (List Char × Nat)),
      (tokenLoop cats toks (s, c)).1 =
        s + (toks.filterMap (catLookup cats)).sum := by
  intro toks
  induction toks with
  | nil => intro s c; simp [tokenLoop]
  | cons tok rest ih =>
    intro s c
    rcases hcl : catLookup cats tok with _ | w
    · simp only [tokenLoop, hcl, List.filterMap_cons]
      rw [ih]
    · simp only [tokenLoop, hcl, List.filterMap_cons]
      rw [ih, List.sum_cons]
      ring

theorem tokenLoop_lookup (cats : TokenTable) :
    ∀ (toks : List (List Char)) (s : ℚ) (c : List (List Char × Nat))
      (tok : List Char),
      lookupKey tok (tokenLoop cats toks (s, c)).2 =
        if (catLookup cats tok).isSome = true ∧ 0 < toks.count tok then
          some ((lookupKey tok c).getD 0 + toks.count tok)
        else lookupKey tok c := by
  intro toks
  induction toks with
  | nil => intro s c tok; simp [tokenLoop]
  | cons t rest ih =>
    intro s c tok
    rcases hcl : catLookup cats t with _ | w
    · simp only [tokenLoop, hcl]
      rw [ih]
      by_cases he : tok = t
      · subst he
        simp [hcl]
      · simp [List.count_cons, he]
    · simp only [tokenLoop, hcl]
      rw [ih]
      by_cases he : tok = t
      · subst he
        rw [lookupKey_setKey_self]
        simp only [hcl, Option.isSome_some, true_and, Option.getD_some,
          List.count_cons_self]
        by_cases h0 : 0 < rest.count tok
        · rw [if_pos h0, if_pos (by omega)]
          congr 1
          omega
        · rw [if_neg h0, if_pos (by omega)]
          have h1 : rest.count tok = 0 := by omega
          rw [h1]
      · rw [lookupKey_setKey_ne he]
        simp [List.count_cons, he]

/-- C4.  For every residual text, the token matcher extracts tokens as the
maximal runs of ASCII letters and apostrophes (every other character is a
discarded boundary), scores each extracted occurrence under the first
`TOKEN_CONFIG` category containing the exact token (checking no further
categories), and tokens in no category contribute zero and are not
recorded: each known token's recorded count is its number of occurrences,
and unknown tokens have no entry. -/
theorem token_matcher_first_category (text : List Char) :
    tokenize text = maximalRunsSpec text ∧
    (token_score TOKEN_CONFIG text).1 =
      ((tokenize text).filterMap (firstCatWeightSpec TOKEN_CONFIG)).sum ∧
    ∀ tok : List Char,
      lookupKey tok (token_score TOKEN_CONFIG text).2 =
        if (firstCatWeightSpec TOKEN_CONFIG tok).isSome = true ∧
            0 < (tokenize text).count tok then
          some ((tokenize text).count tok)
        else none := by
  refine ⟨tokenize_eq_maximalRuns text, ?_, ?_⟩
  · unfold token_score
    rw [tokenLoop_score_occ]
    rw [show catLookup TOKEN_CONFIG = firstCatWeightSpec TOKEN_CONFIG from
      funext (catLookup_eq_spec TOKEN_CONFIG)]
    ring
  · intro tok
    unfold token_score
    rw [tokenLoop_lookup, ← catLookup_eq_spec]
    simp [lookupKey]

/-- C9.  The `debug` flag does not interfere with the returned result:
for every text, `analyze_sentiment text debug` returns the same
`AnalysisResult` for any two values of the flag (debug output goes only
to the separate diagnostic channel), and the computation reads no state
other than its input, so identical input yields identical output. -/
theorem analyze_debug_noninterference (text : List Char) (d1 d2 : Bool) :
    (analyze_sentiment text d1).1 = (analyze_sentiment text d2).1 := rfl

theorem char_ofNat_toNat_le (n : Nat) (h1 : 97 ≤ n) (h2 : n ≤ 122) :
    (Char.ofNat n).toNat = n := by
  interval_cases n <;> decide

theorem lowerChar_toNat (c : Char) :
    (lowerChar c).toNat =
      if 65 ≤ c.toNat ∧ c.toNat ≤ 90 then c.toNat + 32 else c.toNat := by
  unfold lowerChar
  split_ifs with h
  · exact char_ofNat_toNat_le _ (by omega) (by omega)
  · rfl

theorem lowerChar_idem (c : Char) : lowerChar (lowerChar c) = lowerChar c := by
  have hdef : ∀ d : Char, lowerChar d =
      if 65 ≤ d.toNat ∧ d.toNat ≤ 90 then Char.ofNat (d.toNat + 32) else d :=
    fun d => rfl
  by_cases h : 65 ≤ c.toNat ∧ c.toNat ≤ 90
  · have h1 : (lowerChar c).toNat = c.toNat + 32 := by
      rw [lowerChar_toNat, if_pos h]
    have h2 : ¬(65 ≤ (lowerChar c).toNat ∧ (lowerChar c).toNat ≤ 90) := by
      rw [h1]
      omega
    rw [hdef (lowerChar c), if_neg h2]
  · have hc : lowerChar c = c := by rw [hdef c, if_neg h]
    rw [hc, hc]

theorem isWSChar_lowerChar (c : Char) :
    isWSChar (lowerChar c) = isWSChar c := by
  by_cases h : 65 ≤ c.toNat ∧ c.toNat ≤ 90
  · have h1 : (lowerChar c).toNat = c.toNat + 32 := by
      rw [lowerChar_toNat, if_pos h]
    have hl : isWSChar (lowerChar c) = false := by
      simp only [isWSChar, h1, Bool.or_eq_false_iff, beq_eq_false_iff_ne,
        ne_eq]
      omega
    have hr : isWSChar c = false := by
      simp only [isWSChar, Bool.or_eq_false_iff, beq_eq_false_iff_ne, ne_eq]
      omega
    rw [hl, hr]
  · have h1 : (lowerChar c).toNat = c.toNat := by
      rw [lowerChar_toNat, if_neg h]
    simp only [isWSChar, h1]

theorem lowerChar_spaceChar : lowerChar spaceChar = spaceChar := by decide

theorem collapseWS_map_lower (l : List Char) :
    collapseWS (l.map lowerChar) = (collapseWS l).map lowerChar := by
  induction l with
  | nil => rfl
  | cons c cs ih =>
    cases cs with
    | nil =>
      simp only [List.map_cons, List.map_nil, collapseWS, isWSChar_lowerChar]
      split_ifs with h
      · simp [lowerChar_spaceChar]
      · simp
    | cons d ds =>
      simp only [List.map_cons] at ih ⊢
      simp only [collapseWS, isWSChar_lowerChar]
      split_ifs with h1 h2
      · exact ih
      · simp only [List.map_cons, ih, lowerChar_spaceChar]
      · simp only [List.map_cons, ih]

theorem collapseWS_ws_space (l : List Char) :
    ∀ c ∈ collapseWS l, isWSChar c = true → c = spaceChar := by
  induction l with
  | nil => simp [collapseWS]
  | cons c cs ih =>
    cases cs with
    | nil =>
      simp only [collapseWS]
      split_ifs with h
      · intro x hx _
        simpa using hx
      · intro x hx hw
        simp only [List.mem_singleton] at hx
        subst hx
        exact absurd hw h
    | cons d ds =>
      simp only [collapseWS]
      split_ifs with h1 h2
      · exact ih
      · intro x hx hw
        rcases List.mem_cons.mp hx with h3 | h3
        · exact h3
        · exact ih x h3 hw
      · intro x hx hw
        rcases List.mem_cons.mp hx with h3 | h3
        · subst h3
          exact absurd hw h1
        · exact ih x h3 hw

theorem collapseWS_head_not_ws {d : Char} (cs : List Char)
    (h : isWSChar d = false) :
    (collapseWS (d :: cs)).head? = some d := by
  cases cs with
  | nil => simp [collapseWS, h]
  | cons e es => simp [collapseWS, h]

theorem collapseWS_chain (l : List Char) :
    List.Chain' (fun a b => ¬(isWSChar a = true ∧ isWSChar b = true))
      (collapseWS l) := by
  induction l with
  | nil => simp [collapseWS]
  | cons c cs ih =>
    cases cs with
    | nil =>
      simp only [collapseWS]
      split_ifs <;> exact List.chain'_singleton _
    | cons d ds =>
      simp only [collapseWS]
      split_ifs with h1 h2
      · exact ih
      · rw [List.chain'_cons']
        refine ⟨?_, ih⟩
        intro y hy
        rw [collapseWS_head_not_ws ds (by simpa using h2)] at hy
        simp only [Option.mem_def, Option.some.injEq] at hy
        subst hy
        intro hcon
        exact h2 hcon.2
      · rw [List.chain'_cons']
        refine ⟨?_, ih⟩
        intro y hy hcon
        exact h1 hcon.1

theorem chain'_dropWhile {α : Type} {R : α → α → Prop} (p : α → Bool)
    (l : List α) (h : List.Chain' R l) : List.Chain' R (l.dropWhile p) := by
  induction l with
  | nil => simpa using h
  | cons c cs ih =>
    rw [List.dropWhile_cons]
    split_ifs with hc
    · exact ih (List.chain'_cons'.mp h).2
    · exact h

theorem dropWhile_eq_self_of_head {p : Char → Bool} {l : List Char}
    (hh : ∀ a ∈ l.head?, p a = false) : l.dropWhile p = l := by
  cases l with
  | nil => rfl
  | cons c cs =>
    have hc := hh c (by simp)
    rw [List.dropWhile_cons, if_neg (by simp [hc])]

theorem head?_dropWhile_false (p : Char → Bool) (l : List Char) :
    ∀ a ∈ (l.dropWhile p).head?, p a = false := by
  induction l with
  | nil => simp
  | cons c cs ih =>
    rw [List.dropWhile_cons]
    split_ifs with hc
    · exact ih
    · intro a ha
      simp only [List.head?_cons, Option.mem_def, Option.some.injEq] at ha
      subst ha
      simpa using hc

theorem dropTrailWS_prefix_rest (v : List Char) :
    ∃ u : List Char, v = dropTrailWS v ++ u := by
  obtain ⟨u, hu⟩ := @List.dropWhile_suffix Char v.reverse isWSChar
  refine ⟨u.reverse, ?_⟩
  calc v = v.reverse.reverse := (List.reverse_reverse v).symm
  _ = (u ++ v.reverse.dropWhile isWSChar).reverse := by rw [hu]
  _ = (v.reverse.dropWhile isWSChar).reverse ++ u.reverse := by
      rw [List.reverse_append]
  _ = dropTrailWS v ++ u.reverse := rfl

theorem stripWS_head_false (l : List Char) :
    ∀ a ∈ (stripWS l).head?, isWSChar a = false := by
  intro a ha
  obtain ⟨u, hu⟩ := dropTrailWS_prefix_rest (l.dropWhile isWSChar)
  have ha2 : (dropTrailWS (l.dropWhile isWSChar)).head? = some a := ha
  cases hdt : dropTrailWS (l.dropWhile isWSChar) with
  | nil => rw [hdt] at ha2; simp at ha2
  | cons b bs =>
    rw [hdt] at ha2 hu
    simp only [List.head?_cons, Option.some.injEq] at ha2
    have hmem : a ∈ (l.dropWhile isWSChar).head? := by
      rw [hu, ← ha2]
      rfl
    exact head?_dropWhile_false isWSChar l a hmem

theorem stripWS_last_false (l : List Char) :
    ∀ a ∈ (stripWS l).getLast?, isWSChar a = false := by
  intro a ha
  unfold stripWS dropTrailWS at ha
  rw [List.getLast?_eq_head?_reverse, List.reverse_reverse] at ha
  exact head?_dropWhile_false isWSChar _ a ha

theorem stripWS_ws_space {l : List Char}
    (h : ∀ c ∈ l, isWSChar c = true → c = spaceChar) :
    ∀ c ∈ stripWS l, isWSChar c = true → c = spaceChar := by
  intro c hc
  apply h
  unfold stripWS dropTrailWS at hc
  rw [List.mem_reverse] at hc
  have hc2 := (List.dropWhile_sublist isWSChar).subset hc
  rw [List.mem_reverse] at hc2
  exact (List.dropWhile_sublist isWSChar).subset hc2

theorem stripWS_chain {l : List Char}
    (h : List.Chain' (fun a b => ¬(isWSChar a = true ∧ isWSChar b = true)) l) :
    List.Chain' (fun a b => ¬(isWSChar a = true ∧ isWSChar b = true))
      (stripWS l) := by
  have hsymm : ∀ m : List Char,
      List.Chain' (fun a b => ¬(isWSChar a = true ∧ isWSChar b = true)) m →
      List.Chain' (fun a b => ¬(isWSChar a = true ∧ isWSChar b = true))
        m.reverse := by
    intro m hm
    exact List.chain'_reverse.mpr
      (hm.imp (fun a b hab hc => hab ⟨hc.2, hc.1⟩))
  unfold stripWS dropTrailWS
  exact hsymm _ (chain'_dropWhile _ _ (hsymm _ (chain'_dropWhile _ _ h)))

theorem collapseWS_of_canonical :
    ∀ l : List Char, (∀ c ∈ l, isWSChar c = true → c = spaceChar) →
      List.Chain' (fun a b => ¬(isWSChar a = true ∧ isWSChar b = true)) l →
      collapseWS l = l := by
  intro l
  induction l with
  | nil => intro _ _; rfl
  | cons c cs ih =>
    intro hws hch
    cases cs with
    | nil =>
      simp only [collapseWS]
      split_ifs with h
      · rw [hws c (by simp) h]
      · rfl
    | cons d ds =>
      have hch2 := List.chain'_cons.mp hch
      have hws2 : ∀ x ∈ d :: ds, isWSChar x = true → x = spaceChar :=
        fun x hx => hws x (List.mem_cons_of_mem _ hx)
      simp only [collapseWS]
      split_ifs with h1 h2
      · exact absurd ⟨h1, h2⟩ hch2.1
      · rw [ih hws2 hch2.2, hws c (by simp) h1]
      · rw [ih hws2 hch2.2]

theorem stripWS_eq_self {l : List Char}
    (hh : ∀ a ∈ l.head?, isWSChar a = false)
    (hl : ∀ a ∈ l.getLast?, isWSChar a = false) : stripWS l = l := by
  have hh2 : ∀ a ∈ l.reverse.head?, isWSChar a = false := by
    intro a ha
    rw [List.head?_reverse] at ha
    exact hl a ha
  unfold stripWS dropTrailWS
  rw [dropWhile_eq_self_of_head hh, dropWhile_eq_self_of_head hh2,
    List.reverse_reverse]

theorem stripWS_map_lower (l : List Char) :
    stripWS (l.map lowerChar) = (stripWS l).map lowerChar := by
  have hfun : (isWSChar ∘ lowerChar) = isWSChar := funext isWSChar_lowerChar
  unfold stripWS dropTrailWS
  rw [List.dropWhile_map, hfun, ← List.map_reverse, List.dropWhile_map, hfun,
    ← List.map_reverse]

theorem map_lower_idem (l : List Char) :
    (l.map lowerChar).map lowerChar = l.map lowerChar := by
  have h : lowerChar ∘ lowerChar = lowerChar := funext lowerChar_idem
  rw [List.map_map, h]

/-- C6.  Normalisation is idempotent: for every text,
`normalise (normalise t) = normalise t`, where `normalise` lower-cases,
collapses every whitespace run to a single space and trims the ends. -/
theorem normalise_idempotent (text : List Char) :
    normalise (normalise text) = normalise text := by
  unfold normalise
  have hmy : List.map lowerChar (collapseWS (List.map lowerChar text)) =
      collapseWS (List.map lowerChar text) := by
    rw [← collapseWS_map_lower, map_lower_idem]
  have hmapz : List.map lowerChar
      (stripWS (collapseWS (List.map lowerChar text))) =
      stripWS (collapseWS (List.map lowerChar text)) := by
    rw [← stripWS_map_lower, hmy]
  rw [hmapz]
  have hcoll : collapseWS (stripWS (collapseWS (List.map lowerChar text))) =
      stripWS (collapseWS (List.map lowerChar text)) :=
    collapseWS_of_canonical _
      (stripWS_ws_space (collapseWS_ws_space _))
      (stripWS_chain (collapseWS_chain _))
  rw [hcoll]
  exact stripWS_eq_self (stripWS_head_false _) (stripWS_last_false _)

/-- C7.  Merging an override whose tokens section names a category outside
positive/negative/neutral raises, at that entry, the unknown-category
error (Python `ValueError`, the spec's `ConfigurationError`) naming the
category; no category is added for it, while the phrase entries and the
entries of valid categories processed earlier in the same call remain
applied (here: `toxic` is named in the error, `stranger danger` and the
earlier `positive` word `guardian` are applied, the later `negative` word
`stalk` is not).  Loading an override from a nonexistent source raises
the file-not-found error (the spec's `NotFoundError`). -/
theorem merge_unknown_category_behaviour :
    (load_custom_keywords (some unknownCatOverride) defaultDynConfig).2 =
      some (PyErr.valueError ("Unknown token category toxic")) ∧
    lookupKey (("stranger danger").data)
      (load_custom_keywords (some unknownCatOverride)
        defaultDynConfig).1.phrases = some (JValue.num 1.0) ∧
    lookupKey (("guardian").data)
      ((lookupKey ("positive") (load_custom_keywords (some unknownCatOverride)
        defaultDynConfig).1.tokens).getD []) = some (JValue.num 0.5) ∧
    ((load_custom_keywords (some unknownCatOverride)
      defaultDynConfig).1.tokens.map Prod.fst) =
      ["positive", "negative", "neutral"] ∧
    lookupKey (("stalk").data)
      ((lookupKey ("negative") (load_custom_keywords (some unknownCatOverride)
        defaultDynConfig).1.tokens).getD []) = none ∧
    load_custom_keywords none defaultDynConfig =
      (defaultDynConfig, some (PyErr.fileNotFound ("missing override file"))) :=
  ⟨rfl, rfl, rfl, rfl, rfl, rfl⟩

/-- Counterexample to C8: an override carrying a wrong-typed (string)
weight is accepted by the merge with no error of any kind, and the type
error surfaces only later, during scoring of a text that matches the new
entry — refuting both that malformed weights fail synchronously at merge
time and that configuration errors are never raised during scoring. -/
theorem merge_validation_counterexample :
    (load_custom_keywords (some badWeightOverride) defaultDynConfig).2 =
      none ∧
    analyze_sentiment_dyn
      (load_custom_keywords (some badWeightOverride) defaultDynConfig).1
      (("zzz").data) =
      Except.error (PyErr.typeError ("unsupported operand types for +")) :=
  ⟨rfl, rfl⟩

/-- C8 as amended.  The merge performs no validation beyond what the
underlying dict operations themselves enforce, and configuration errors
can surface during scoring: a wrong-typed weight value is accepted
silently at merge time and first raises a `TypeError` during a later
scoring call whose text matches the entry; a phrases section or a valid
category's word mapping given as a JSON array of two-element pairs — or
as an empty array — is accepted silently, exactly like an object.  An
error is raised at merge time only where the operation itself fails: a
non-iterable (numeric) phrases section or word mapping, a non-object
tokens section (no `.items()`), or a non-object top-level payload (no
`.get`). -/
theorem merge_validation_amended :
    (load_custom_keywords (some badWeightOverride) defaultDynConfig).2 =
      none ∧
    analyze_sentiment_dyn
      (load_custom_keywords (some badWeightOverride) defaultDynConfig).1
      (("zzz").data) =
      Except.error (PyErr.typeError ("unsupported operand types for +")) ∧
    (load_custom_keywords (some (JValue.obj [("phrases",
        JValue.arr [JValue.arr [JValue.str ("zzz"), JValue.num 1.0]])]))
      defaultDynConfig).2 = none ∧
    lookupKey (("zzz").data)
      (load_custom_keywords (some (JValue.obj [("phrases",
        JValue.arr [JValue.arr [JValue.str ("zzz"), JValue.num 1.0]])]))
      defaultDynConfig).1.phrases = some (JValue.num 1.0) ∧
    load_custom_keywords (some (JValue.obj [("phrases", JValue.arr [])]))
      defaultDynConfig = (defaultDynConfig, none) ∧
    (load_custom_keywords (some (JValue.obj [("tokens",
        JValue.obj [("positive",
          JValue.arr [JValue.arr [JValue.str ("goodword"),
            JValue.num 0.5]])])])) defaultDynConfig).2 = none ∧
    lookupKey (("goodword").data)
      ((lookupKey ("positive")
        (load_custom_keywords (some (JValue.obj [("tokens",
          JValue.obj [("positive",
            JValue.arr [JValue.arr [JValue.str ("goodword"),
              JValue.num 0.5]])])])) defaultDynConfig).1.tokens).getD []) =
      some (JValue.num 0.5) ∧
    (load_custom_keywords (some (JValue.obj [("phrases", JValue.num 3)]))
      defaultDynConfig).2 =
      some (PyErr.typeError ("update argument is not iterable")) ∧
    (load_custom_keywords (some (JValue.obj [("tokens",
        JValue.obj [("positive", JValue.num 3)])])) defaultDynConfig).2 =
      some (PyErr.typeError ("update argument is not iterable")) ∧
    (load_custom_keywords (some (JValue.obj [("tokens", JValue.arr [])]))
      defaultDynConfig).2 =
      some (PyErr.typeError ("tokens section is not a mapping")) ∧
    (load_custom_keywords (some (JValue.arr [])) defaultDynConfig).2 =
      some (PyErr.typeError ("loaded JSON is not an object")) :=
  ⟨rfl, rfl, rfl, rfl, rfl, rfl, rfl, rfl, rfl, rfl, rfl⟩

end Analysis
